import Mathlib

/-!
# The levelled console logger of `log.go`

A shallow embedding of the logger: the process-wide state (threshold and the
two flags), the eight entry points, and the pipeline `output` / `outputf`
(`levelPrefix`, `timestamp`, `colorize`, one write).

The logger calls three libraries.  They are modelled first:

* `fmt`: `Sprintln`, `Fprint`, `Fprintf` over operands that are strings or
  integers.  The top-level loop of `Fprintf` is modelled in full; the directives
  `%%`, `%v`, `%s`, `%d`, a missing operand, a missing verb and surplus operands
  are rendered concretely, every other directive is delegated to a function of
  the environment, so that theorems quantified over the environment cover it.
* `time`: `Format` for the layout elements that occur in `tsf`.
* `colorstring`: `Color` with its default colour table.

Go strings are lists of characters; a stream is the list of the payloads of
the `Write` calls it received.
-/

namespace Log

/-! ## Strings, operands, decimal numbers -/

/-- Go `string` values, as the sequence of their characters. -/
abbrev GoString := List Char

/-- Go `error` values; `Option GoError` is an `error` that may be `nil`. -/
abbrev GoError := String

/-- The operands (`interface{}` values) the model covers. -/
inductive Value where
  | str (s : GoString)
  | int (i : Int)
  deriving DecidableEq, Repr

/-- The decimal digit character of `d % 10`. -/
def digit (d : Nat) : Char :=
  match d % 10 with
  | 0 => '0'
  | 1 => '1'
  | 2 => '2'
  | 3 => '3'
  | 4 => '4'
  | 5 => '5'
  | 6 => '6'
  | 7 => '7'
  | 8 => '8'
  | _ => '9'

/-- Decimal digits of `n`, least significant first (`fuel` bounds the loop). -/
def digitsRev : Nat → Nat → List Char
  | 0, _ => []
  | fuel + 1, n => if n < 10 then [digit n] else digit n :: digitsRev fuel (n / 10)

/-- Decimal digits of `n`, most significant first. -/
def decimal (n : Nat) : GoString :=
  (digitsRev (n + 1) n).reverse

/-- Base-10 rendering of a signed integer (`fmtInteger` without flags). -/
def formatInt (i : Int) : GoString :=
  (if i < 0 then ['-'] else []) ++ decimal i.natAbs

/-- The `%v` rendering of an operand. -/
def Value.formatV : Value → GoString
  | .str s => s
  | .int i => formatInt i

/-- The name `reflect.TypeOf(arg).String()` gives. -/
def Value.typeName : Value → GoString
  | .str _ => "string".toList
  | .int _ => "int".toList

/-- Whether the operand's kind is `reflect.String`. -/
def Value.isString : Value → Bool
  | .str _ => true
  | .int _ => false

/-! ## Package `fmt` -/

/-- The loop of `doPrintln` after the first operand: a space before each operand. -/
def printlnRest : List Value → GoString
  | [] => []
  | a :: rest => ' ' :: (a.formatV ++ printlnRest rest)

/-- `fmt.Sprintln(v...)`: the operands in `%v` form, a space between every two,
and a newline at the end. -/
def Sprintln : List Value → GoString
  | [] => ['\n']
  | a :: rest => a.formatV ++ printlnRest rest ++ ['\n']

/-- The loop of `doPrint` after the first operand: a space between two operands
when neither is a string. -/
def printRest : Bool → List Value → GoString
  | _, [] => []
  | prevString, a :: rest =>
    (if !a.isString && !prevString then [' '] else []) ++ a.formatV
      ++ printRest a.isString rest

/-- `fmt.Sprint(v...)`, the text `fmt.Fprint` writes. -/
def Sprint : List Value → GoString
  | [] => []
  | a :: rest => a.formatV ++ printRest a.isString rest

/-- What processing one directive of a format does: the text it emits, how many
characters after the `%` it takes, the operand index afterwards, and whether it
used an explicit operand index. -/
structure Directive where
  out : GoString
  consumed : Nat
  argNum : Nat
  reordered : Bool

/-- The two output streams. -/
inductive Stream where
  | stdout
  | stderr
  deriving DecidableEq, Repr

/-- A point in time, by its calendar fields in the local zone. -/
structure Time where
  year : Int
  month : Nat
  day : Nat
  hour : Nat
  minute : Nat
  second : Nat

/-- What the logger reads from outside itself: the clock (`time.Now()`), whether
a `Write` of a payload to a stream reports an error, and how `fmt` renders a
directive that is not modelled concretely (given the format after the `%`, the
operands and the current operand index). -/
structure Env where
  now : Time
  writeErr : Stream → GoString → Option GoError
  fmtOther : GoString → List Value → Nat → Directive

/-- Characters that, right after `%`, are flags or start an operand index, a
width or a precision; any other character there is the verb itself. -/
def startsModifier (c : Char) : Bool :=
  c == '#' || c == '0' || c == '+' || c == '-' || c == ' ' || c == '['
    || c == '*' || c.isDigit || c == '.'

/-- The renderings of `printArg` that are modelled: `%s` and `%v` of a string,
`%d` and `%v` of an integer. -/
def printArg (arg : Value) (verb : Char) : Option GoString :=
  match arg with
  | .str s => if verb = 's' ∨ verb = 'v' then some s else none
  | .int i => if verb = 'd' ∨ verb = 'v' then some (formatInt i) else none

/-- One directive of `doPrintf`, given the format after its `%`.
At the end of the format: `%!(NOVERB)`.  `%%` is a percent sign.  A verb with no
operand left: `%!verb(MISSING)`.  A modelled verb takes the next operand.
Everything else is left to the environment. -/
def directive (env : Env) (a : List Value) (argNum : Nat) : GoString → Directive
  | [] => ⟨"%!(NOVERB)".toList, 0, argNum, false⟩
  | c :: rest =>
    if c = '%' then ⟨['%'], 1, argNum, false⟩
    else if startsModifier c then env.fmtOther (c :: rest) a argNum
    else
      match a[argNum]? with
      | none => ⟨"%!".toList ++ c :: "(MISSING)".toList, 1, argNum, false⟩
      | some arg =>
        match printArg arg c with
        | some s => ⟨s, 1, argNum + 1, false⟩
        | none => env.fmtOther (c :: rest) a argNum

/-- The operands listed by the `%!(EXTRA ...)` report, each as `type=value`,
separated by a comma and a space. -/
def extraList : List Value → GoString
  | [] => []
  | [a] => a.typeName ++ '=' :: a.formatV
  | a :: b :: rest => a.typeName ++ '=' :: a.formatV ++ ", ".toList ++ extraList (b :: rest)

/-- The report `doPrintf` appends for operands no directive used. -/
def extraArgs (rest : List Value) : GoString :=
  "%!(EXTRA ".toList ++ extraList rest ++ [')']

/-- The loop of `doPrintf`: text up to the next `%` is copied, then one directive
is processed; `skip` counts the characters of the format the last directive
still covers.  After the format, surplus operands are reported unless an
explicit operand index was used. -/
def doPrintf (env : Env) (a : List Value) : Nat → Nat → Bool → GoString → GoString
  | _, argNum, reordered, [] =>
    if !reordered && decide (argNum < a.length) then extraArgs (a.drop argNum) else []
  | skip + 1, argNum, reordered, _ :: cs => doPrintf env a skip argNum reordered cs
  | 0, argNum, reordered, c :: cs =>
    if c = '%' then
      (directive env a argNum cs).out
        ++ doPrintf env a (directive env a argNum cs).consumed
            (directive env a argNum cs).argNum
            (reordered || (directive env a argNum cs).reordered) cs
    else c :: doPrintf env a 0 argNum reordered cs

/-- `fmt.Sprintf(format, a...)`, the text `fmt.Fprintf` writes. -/
def Sprintf (env : Env) (format : GoString) (a : List Value) : GoString :=
  doPrintf env a 0 0 false format

/-! ## Package `time` -/

/-- `appendInt`: a minus sign for a negative number, then its decimal digits
padded with zeros on the left to `width` digits. -/
def appendInt (x : Int) (width : Nat) : GoString :=
  (if x < 0 then ['-'] else [])
    ++ (List.replicate (width - (decimal x.natAbs).length) '0' ++ decimal x.natAbs)

/-- The layout elements that `tsf` uses. -/
inductive Std where
  | longYear
  | zeroMonth
  | zeroDay
  | hour
  | zeroMinute
  | zeroSecond
  deriving DecidableEq, Repr

/-- The layout element at the head of a layout, with its length: `2006`, `01`,
`02`, `15`, `04`, `05`. -/
def stdChunk : List Char → Option (Std × Nat)
  | '2' :: '0' :: '0' :: '6' :: _ => some (.longYear, 4)
  | '0' :: '1' :: _ => some (.zeroMonth, 2)
  | '0' :: '2' :: _ => some (.zeroDay, 2)
  | '1' :: '5' :: _ => some (.hour, 2)
  | '0' :: '4' :: _ => some (.zeroMinute, 2)
  | '0' :: '5' :: _ => some (.zeroSecond, 2)
  | _ => none

/-- The text of one layout element at time `t`. -/
def Time.render (t : Time) : Std → GoString
  | .longYear => appendInt t.year 4
  | .zeroMonth => appendInt t.month 2
  | .zeroDay => appendInt t.day 2
  | .hour => appendInt t.hour 2
  | .zeroMinute => appendInt t.minute 2
  | .zeroSecond => appendInt t.second 2

/-- The loop of `Time.Format` over a layout made of the elements of `stdChunk`
and of characters that start no layout element, which are copied; `skip` counts
the characters the last element still covers. -/
def Time.formatFrom (t : Time) : Nat → List Char → GoString
  | _, [] => []
  | skip + 1, _ :: cs => t.formatFrom skip cs
  | 0, c :: cs =>
    match stdChunk (c :: cs) with
    | some (std, len) => t.render std ++ t.formatFrom (len - 1) cs
    | none => c :: t.formatFrom 0 cs

/-- `t.Format(layout)`. -/
def Time.Format (t : Time) (layout : GoString) : GoString :=
  t.formatFrom 0 layout

/-! ## Package `colorstring` -/

/-- The escape character, `\033`. -/
def esc : Char := Char.ofNat 27

/-- `DefaultColors`: the code of each colour name. -/
def DefaultColors : List (String × String) :=
  [("default", "39"), ("_default_", "49"),
   ("black", "30"), ("red", "31"), ("green", "32"), ("yellow", "33"),
   ("blue", "34"), ("magenta", "35"), ("cyan", "36"), ("light_gray", "37"),
   ("dark_gray", "90"), ("light_red", "91"), ("light_green", "92"),
   ("light_yellow", "93"), ("light_blue", "94"), ("light_magenta", "95"),
   ("light_cyan", "96"), ("white", "97"),
   ("_black_", "40"), ("_red_", "41"), ("_green_", "42"), ("_yellow_", "43"),
   ("_blue_", "44"), ("_magenta_", "45"), ("_cyan_", "46"), ("_light_gray_", "47"),
   ("_dark_gray_", "100"), ("_light_red_", "101"), ("_light_green_", "102"),
   ("_light_yellow_", "103"), ("_light_blue_", "104"), ("_light_magenta_", "105"),
   ("_light_cyan_", "106"), ("_white_", "107"),
   ("bold", "1"), ("dim", "2"), ("underline", "4"), ("blink_slow", "5"),
   ("blink_fast", "6"), ("invert", "7"), ("hidden", "8"),
   ("reset", "0"), ("reset_bold", "21")]

/-- The lookup `c.Colors[name]`. -/
def colorCode (name : GoString) : Option GoString :=
  (DefaultColors.lookup (String.mk name)).map String.toList

/-- The characters the class `[a-z0-9_-]` matches under `(?i)`: letters of both
cases, digits, underscore, hyphen, and the two characters that fold to a letter
(U+017F to `s`, U+212A to `k`). -/
def isNameChar (c : Char) : Bool :=
  c.isLower || c.isUpper || c.isDigit || c == '_' || c == '-'
    || c == Char.ofNat 0x17F || c == Char.ofNat 0x212A

/-- A match of the pattern `\[[a-z0-9_-]+\]` at the head of the text: the name
between the brackets. -/
def matchTag : GoString → Option GoString
  | [] => none
  | c :: cs =>
    if c = '[' ∧ cs.takeWhile isNameChar ≠ [] ∧ (cs.dropWhile isNameChar).head? = some ']'
    then some (cs.takeWhile isNameChar)
    else none

/-- What `Color` writes for a match: the escape sequence of a known colour, the
matched text itself for an unknown name. -/
def replaceTag (name : GoString) : GoString :=
  match colorCode name with
  | some code => esc :: '[' :: (code ++ ['m'])
  | none => '[' :: (name ++ [']'])

/-- The loop of `Colorize.Color` over the matches, from left to right without
overlap: text outside a match is copied, a match is replaced; `skip` counts the
characters the last match still covers. -/
def colorBody : Nat → GoString → GoString
  | _, [] => []
  | skip + 1, _ :: cs => colorBody skip cs
  | 0, c :: cs =>
    match matchTag (c :: cs) with
    | some name => replaceTag name ++ colorBody (name.length + 1) cs
    | none => c :: colorBody 0 cs

/-- The flag `colored` of `Colorize.Color`: some match named a known colour. -/
def colorUsed : Nat → GoString → Bool
  | _, [] => false
  | skip + 1, _ :: cs => colorUsed skip cs
  | 0, c :: cs =>
    match matchTag (c :: cs) with
    | some name => (colorCode name).isSome || colorUsed (name.length + 1) cs
    | none => colorUsed 0 cs

/-- Whether the pattern matches anywhere in the text. -/
def anyTag : GoString → Bool
  | [] => false
  | c :: cs => (matchTag (c :: cs)).isSome || anyTag cs

/-- The reset sequence `\033[0m`. -/
def resetSeq : GoString := esc :: "[0m".toList

/-- `colorstring.Color(v)` with the default settings (`Reset` on, `Disable`
off): the text unchanged when nothing matches; otherwise every match replaced
and, when a colour was used, the reset sequence appended. -/
def Color (v : GoString) : GoString :=
  if anyTag v then colorBody 0 v ++ (if colorUsed 0 v then resetSeq else []) else v

/-! ## The logger (`log.go`) -/

/-- Timestamp format. -/
def tsf : GoString := "2006/01/02 15:04:05".toList

/-- Level holds the current log level; it is an `int`. -/
abbrev Level := Int

def LevelDebug : Level := 0

def LevelInfo : Level := 1

def LevelWarn : Level := 2

def LevelError : Level := 3

def levelPrefix : List GoString :=
  ["DEBUG: ".toList, "INFO: ".toList, "WARNING: ".toList, "ERROR: ".toList]

def levelColor : List GoString :=
  ["[blue]".toList, "[cyan]".toList, "[yellow]".toList, "[red]".toList]

/-- Indexing one of the two tables by a level, `table[l]`; `none` is the
run-time panic of an index out of range. -/
def index (table : List GoString) (l : Level) : Option GoString :=
  if l < 0 then none else table[l.toNat]?

/-- The package variables `level`, `DisableColor` and `DisableTime`. -/
structure State where
  level : Level
  DisableColor : Bool
  DisableTime : Bool
  deriving DecidableEq, Repr

/-- The variables as initialised: `LevelDebug`, `false`, `false`. -/
def initial : State := ⟨LevelDebug, false, false⟩

/-- SetLevel changes the current log level to l. -/
def SetLevel (st : State) (l : Level) : State :=
  { st with level := l }

/-- The assignment `DisableColor = b`. -/
def assignDisableColor (st : State) (b : Bool) : State :=
  { st with DisableColor := b }

/-- The assignment `DisableTime = b`. -/
def assignDisableTime (st : State) (b : Bool) : State :=
  { st with DisableTime := b }

/-- The two streams, each as the payloads of the `Write` calls made on it,
oldest first. -/
structure World where
  stdout : List GoString
  stderr : List GoString
  deriving DecidableEq, Repr

/-- The `Write` calls a stream has received. -/
def World.log (world : World) : Stream → List GoString
  | .stdout => world.stdout
  | .stderr => world.stderr

/-- The world after one more `Write` of `s` on stream `w`. -/
def World.push (world : World) (w : Stream) (s : GoString) : World :=
  match w with
  | .stdout => { world with stdout := world.stdout ++ [s] }
  | .stderr => { world with stderr := world.stderr ++ [s] }

/-- One call `w.Write(s)`: the error it reports and the world after it. -/
def write (env : Env) (world : World) (w : Stream) (s : GoString) : Option GoError × World :=
  (env.writeErr w s, world.push w s)

/-- `fmt.Fprint(w, a...)`: the text is built, then written by one `Write`; the
byte count is dropped by the callers. -/
def Fprint (env : Env) (world : World) (w : Stream) (a : List Value) : Option GoError × World :=
  write env world w (Sprint a)

/-- `fmt.Fprintf(w, format, a...)`: the text is built, then written by one
`Write`. -/
def Fprintf (env : Env) (world : World) (w : Stream) (format : GoString) (a : List Value) :
    Option GoError × World :=
  write env world w (Sprintf env format a)

/-- colorize colorizes the output. `none` is the panic of `levelColor[l]`. -/
def colorize (st : State) (l : Level) (s : GoString) : Option GoString :=
  if st.DisableColor then some s
  else
    match index levelColor l with
    | none => none
    | some tag => some (Color (tag ++ s))

/-- timestamp prepends a timestamp. -/
def timestamp (env : Env) (st : State) (s : GoString) : GoString :=
  if st.DisableTime then s
  else env.now.Format tsf ++ (" - ".toList ++ s)

/-- output writes the log message controlled by log level. The result is the
returned error and the world afterwards; `none` is a run-time panic. -/
def output (env : Env) (st : State) (world : World) (w : Stream) (l : Level)
    (v : List Value) : Option (Option GoError × World) :=
  if l < st.level then some (none, world)
  else
    match index levelPrefix l with
    | none => none
    | some p =>
      match colorize st l (timestamp env st (p ++ Sprintln v)) with
      | none => none
      | some s => some (Fprint env world w [.str s])

/-- outputf writes the formatted log message controlled by log level. -/
def outputf (env : Env) (st : State) (world : World) (w : Stream) (l : Level)
    (format : GoString) (v : List Value) : Option (Option GoError × World) :=
  if l < st.level then some (none, world)
  else
    match index levelPrefix l with
    | none => none
    | some p =>
      match colorize st l (timestamp env st (p ++ Sprintln [.str format])) with
      | none => none
      | some s => some (Fprintf env world w s v)

/-- Debug logs a debug message to stdout. -/
def Debug (env : Env) (st : State) (world : World) (v : List Value) :=
  output env st world .stdout LevelDebug v

/-- Debugf logs a formatted debug message to stdout. -/
def Debugf (env : Env) (st : State) (world : World) (format : GoString) (v : List Value) :=
  outputf env st world .stdout LevelDebug format v

/-- Info logs an informational message to stdout. -/
def Info (env : Env) (st : State) (world : World) (v : List Value) :=
  output env st world .stdout LevelInfo v

/-- Infof logs a formatted informational message to stdout. -/
def Infof (env : Env) (st : State) (world : World) (format : GoString) (v : List Value) :=
  outputf env st world .stdout LevelInfo format v

/-- Warn logs a warning message to stdout. -/
def Warn (env : Env) (st : State) (world : World) (v : List Value) :=
  output env st world .stdout LevelWarn v

/-- Warnf logs a formatted warning message to stdout. -/
def Warnf (env : Env) (st : State) (world : World) (format : GoString) (v : List Value) :=
  outputf env st world .stdout LevelWarn format v

/-- Error logs an error message to stderr. -/
def Error (env : Env) (st : State) (world : World) (v : List Value) :=
  output env st world .stderr LevelError v

/-- Errorf logs a formatted error message to stderr. -/
def Errorf (env : Env) (st : State) (world : World) (format : GoString) (v : List Value) :=
  outputf env st world .stderr LevelError format v

/-! ## Vocabulary of the specification -/

/-- The four levels that have entry points. -/
inductive LevelName where
  | debug
  | info
  | warn
  | error
  deriving DecidableEq, Repr

/-- The level constant of a named level. -/
def LevelName.toLevel : LevelName → Level
  | .debug => LevelDebug
  | .info => LevelInfo
  | .warn => LevelWarn
  | .error => LevelError

/-- The plain entry point of a level: `Debug`, `Info`, `Warn` or `Error`. -/
def plainCall (env : Env) (st : State) (world : World) (L : LevelName) (v : List Value) :
    Option (Option GoError × World) :=
  match L with
  | .debug => Debug env st world v
  | .info => Info env st world v
  | .warn => Warn env st world v
  | .error => Error env st world v

/-- The formatted entry point of a level: `Debugf`, `Infof`, `Warnf` or `Errorf`. -/
def formattedCall (env : Env) (st : State) (world : World) (L : LevelName)
    (format : GoString) (v : List Value) : Option (Option GoError × World) :=
  match L with
  | .debug => Debugf env st world format v
  | .info => Infof env st world format v
  | .warn => Warnf env st world format v
  | .error => Errorf env st world format v

/-- The textual label the specification gives each level. -/
def LevelName.label : LevelName → GoString
  | .debug => "DEBUG: ".toList
  | .info => "INFO: ".toList
  | .warn => "WARNING: ".toList
  | .error => "ERROR: ".toList

/-- The destination the specification gives each level. -/
def LevelName.stream : LevelName → Stream
  | .debug => .stdout
  | .info => .stdout
  | .warn => .stdout
  | .error => .stderr

/-- The escape sequence of the colour the specification gives each level: blue,
cyan, yellow, red (SGR codes 34, 36, 33, 31). -/
def LevelName.colorSeq : LevelName → GoString
  | .debug => esc :: "[34m".toList
  | .info => esc :: "[36m".toList
  | .warn => esc :: "[33m".toList
  | .error => esc :: "[31m".toList

/-- The colour marker of each level, as `levelColor` lists them. -/
def LevelName.tag : LevelName → GoString
  | .debug => "[blue]".toList
  | .info => "[cyan]".toList
  | .warn => "[yellow]".toList
  | .error => "[red]".toList

/-- A level value is one of the four named constants. -/
def isNamed (l : Level) : Prop :=
  l = LevelDebug ∨ l = LevelInfo ∨ l = LevelWarn ∨ l = LevelError

/-- The text of the timestamp segment under a state: `<time> - ` when
timestamps are on, nothing when they are off. -/
def stamp (env : Env) (st : State) : GoString :=
  if st.DisableTime then [] else env.now.Format tsf ++ " - ".toList

/-- The six fields the layout `tsf` selects, each as `Time.Format` renders it,
with the separators of the layout between them. -/
def tsfFields (t : Time) : GoString :=
  appendInt t.year 4 ++ '/' :: (appendInt t.month 2 ++ '/' :: (appendInt t.day 2 ++ ' ' ::
    (appendInt t.hour 2 ++ ':' :: (appendInt t.minute 2 ++ ':' :: appendInt t.second 2))))

/-- A number written in decimal with at least `width` digits, zeros on the left.
The digits are those of `Nat.toDigits`, the decimal printer of Lean itself. -/
def zeroPadded (width n : Nat) : GoString :=
  List.replicate (width - (Nat.toDigits 10 n).length) '0' ++ Nat.toDigits 10 n

/-- A time rendered as `YYYY/MM/DD hh:mm:ss`: the year in four digits, then
month, day, hour on the 24-hour clock, minute and second in two digits each,
separated by `/`, `/`, a space, `:` and `:`. A year before year 0 carries a
minus sign, a year after 9999 its further digits. -/
def ymdHms (t : Time) : GoString :=
  (if t.year < 0 then ['-'] else []) ++ zeroPadded 4 t.year.natAbs
    ++ '/' :: (zeroPadded 2 t.month ++ '/' :: (zeroPadded 2 t.day ++ ' ' ::
      (zeroPadded 2 t.hour ++ ':' :: (zeroPadded 2 t.minute ++ ':' :: zeroPadded 2 t.second))))

/-- The decimal digit of `n` at position `k` (units at position 0), as the
character with code point 48 plus the digit. -/
def digitAt (n k : Nat) : Char :=
  Char.ofNat (48 + n / 10 ^ k % 10)

/-- A time of the calendar: year 0 to 9999, month 1 to 12, day 1 to 31, hour 0
to 23, minute and second 0 to 59. -/
def Time.isCalendar (t : Time) : Prop :=
  0 ≤ t.year ∧ t.year ≤ 9999 ∧ 1 ≤ t.month ∧ t.month ≤ 12 ∧ 1 ≤ t.day ∧ t.day ≤ 31
    ∧ t.hour ≤ 23 ∧ t.minute ≤ 59 ∧ t.second ≤ 59

/-- The nineteen characters `YYYY/MM/DD hh:mm:ss` of a time, digit by digit. -/
def nineteen (t : Time) : GoString :=
  [digitAt t.year.toNat 3, digitAt t.year.toNat 2, digitAt t.year.toNat 1,
   digitAt t.year.toNat 0, '/',
   digitAt t.month 1, digitAt t.month 0, '/',
   digitAt t.day 1, digitAt t.day 0, ' ',
   digitAt t.hour 1, digitAt t.hour 0, ':',
   digitAt t.minute 1, digitAt t.minute 0, ':',
   digitAt t.second 1, digitAt t.second 0]

/-- Some match of the colour pattern in the text names a known colour. -/
def knownTag : GoString → Bool
  | [] => false
  | c :: cs =>
    (match matchTag (c :: cs) with
      | some name => (colorCode name).isSome
      | none => false) || knownTag cs

/-- A format made of literal text and the directives `%%`, `%v`, `%s` and `%d`,
each of the last three taking the next operand, of a kind it renders, with no
operand left at the end. -/
def matched : GoString → List Value → Bool
  | [], a => a.isEmpty
  | c :: cs, a =>
    if c = '%' then
      match cs with
      | [] => false
      | verb :: rest =>
        if verb = '%' then matched rest a
        else
          match a with
          | [] => false
          | arg :: a' => !startsModifier verb && (printArg arg verb).isSome && matched rest a'
    else matched cs a

/-- A character that is neither a percent sign, nor an opening bracket, nor the
escape character. -/
def plainChar (c : Char) : Prop :=
  c ≠ '%' ∧ c ≠ '[' ∧ c ≠ esc

/-! ## Concrete data for the examples -/

/-- An environment: 4 November 2026, 09:05:07; every write succeeds. -/
def env0 : Env :=
  { now := ⟨2026, 11, 4, 9, 5, 7⟩
    writeErr := fun _ _ => none
    fmtOther := fun _ _ n => ⟨[], 1, n, false⟩ }

/-- An environment in which every write reports an error. -/
def envBroken : Env :=
  { now := ⟨2026, 11, 4, 9, 5, 7⟩
    writeErr := fun _ _ => some "broken pipe"
    fmtOther := fun _ _ n => ⟨[], 1, n, false⟩ }

/-- Both streams untouched. -/
def world0 : World := ⟨[], []⟩

/-- Threshold `Warn`, colour and timestamps disabled. -/
def quiet : State := ⟨LevelWarn, true, true⟩

/-! ## Lemmas -/

theorem index_levelPrefix (L : LevelName) : index levelPrefix L.toLevel = some L.label := by
  cases L <;> rfl

theorem index_levelColor (L : LevelName) : index levelColor L.toLevel = some L.tag := by
  cases L <;> rfl

theorem colorize_named (st : State) (L : LevelName) (s : GoString) :
    colorize st L.toLevel s = some (if st.DisableColor then s else Color (L.tag ++ s)) := by
  unfold colorize
  rw [index_levelColor]
  split <;> rfl

theorem Sprint_single (s : GoString) : Sprint [.str s] = s := by
  simp [Sprint, printRest, Value.formatV]

theorem Sprintln_single (s : GoString) : Sprintln [.str s] = s ++ ['\n'] := by
  simp [Sprintln, printlnRest, Value.formatV]

/-- An unfiltered `output` at a named level is one write of the decorated line. -/
theorem output_named (env : Env) (st : State) (world : World) (w : Stream) (L : LevelName)
    (v : List Value) (h : st.level ≤ L.toLevel) :
    output env st world w L.toLevel v
      = some (write env world w
          (if st.DisableColor then timestamp env st (L.label ++ Sprintln v)
           else Color (L.tag ++ timestamp env st (L.label ++ Sprintln v)))) := by
  unfold output
  rw [if_neg (not_lt.mpr h), index_levelPrefix]
  simp only [colorize_named, Fprint, Sprint_single]

/-- An unfiltered `outputf` at a named level is one write of the substitution
into the decorated template. -/
theorem outputf_named (env : Env) (st : State) (world : World) (w : Stream) (L : LevelName)
    (format : GoString) (v : List Value) (h : st.level ≤ L.toLevel) :
    outputf env st world w L.toLevel format v
      = some (write env world w
          (Sprintf env
            (if st.DisableColor then timestamp env st (L.label ++ (format ++ ['\n']))
             else Color (L.tag ++ timestamp env st (L.label ++ (format ++ ['\n'])))) v)) := by
  unfold outputf
  rw [if_neg (not_lt.mpr h), index_levelPrefix]
  simp only [colorize_named, Sprintln_single, Fprintf]

theorem plainCall_eq (env : Env) (st : State) (world : World) (L : LevelName) (v : List Value) :
    plainCall env st world L v = output env st world L.stream L.toLevel v := by
  cases L <;> rfl

theorem formattedCall_eq (env : Env) (st : State) (world : World) (L : LevelName)
    (format : GoString) (v : List Value) :
    formattedCall env st world L format v
      = outputf env st world L.stream L.toLevel format v := by
  cases L <;> rfl

/-! ### Literal text in a format -/

/-- Text without a percent sign in front of a format is copied as it is. -/
theorem doPrintf_literal (env : Env) (a : List Value) (argNum : Nat) (reordered : Bool)
    (lit rest : GoString) (h : '%' ∉ lit) :
    doPrintf env a 0 argNum reordered (lit ++ rest)
      = lit ++ doPrintf env a 0 argNum reordered rest := by
  induction lit with
  | nil => rfl
  | cons c cs ih =>
    have hc : c ≠ '%' := fun e => h (by simp [e])
    have hcs : '%' ∉ cs := fun e => h (List.mem_cons_of_mem _ e)
    show doPrintf env a 0 argNum reordered (c :: (cs ++ rest)) = c :: (cs ++ _)
    rw [doPrintf, if_neg hc, ih hcs]

theorem Sprintf_literal (env : Env) (a : List Value) (lit rest : GoString) (h : '%' ∉ lit) :
    Sprintf env (lit ++ rest) a = lit ++ Sprintf env rest a :=
  doPrintf_literal env a 0 false lit rest h

/-! ### Characters of a timestamp -/

theorem plainChar_digit (d : Nat) : plainChar (digit d) := by
  unfold digit
  split <;> exact ⟨by decide, by decide, by decide⟩

theorem plainChar_digitsRev (fuel n : Nat) : ∀ c ∈ digitsRev fuel n, plainChar c := by
  induction fuel generalizing n with
  | zero => intro c hc; simp [digitsRev] at hc
  | succ f ih =>
    intro c hc
    unfold digitsRev at hc
    split at hc
    · simp only [List.mem_singleton] at hc
      subst hc
      exact plainChar_digit n
    · rcases List.mem_cons.mp hc with rfl | hc
      · exact plainChar_digit n
      · exact ih _ c hc

theorem plainChar_decimal (n : Nat) : ∀ c ∈ decimal n, plainChar c := by
  intro c hc
  exact plainChar_digitsRev _ _ c (List.mem_reverse.mp hc)

theorem plainChar_appendInt (x : Int) (width : Nat) : ∀ c ∈ appendInt x width, plainChar c := by
  intro c hc
  unfold appendInt at hc
  rcases List.mem_append.mp hc with hc | hc
  · split at hc
    · simp only [List.mem_singleton] at hc
      subst hc
      exact ⟨by decide, by decide, by decide⟩
    · simp at hc
  · rcases List.mem_append.mp hc with hc | hc
    · rw [(List.mem_replicate.mp hc).2]
      exact ⟨by decide, by decide, by decide⟩
    · exact plainChar_decimal _ c hc

/-- The layout `tsf` selects year, month, day, hour, minute and second. -/
theorem Format_tsf_fields (t : Time) : t.Format tsf = tsfFields t := by
  simp [Time.Format, tsf, Time.formatFrom, stdChunk, tsfFields, Time.render]

theorem plainChar_tsfFields (t : Time) : ∀ c ∈ tsfFields t, plainChar c := by
  intro c hc
  simp only [tsfFields, List.mem_append, List.mem_cons] at hc
  have sep : ∀ d : Char, d = '/' ∨ d = ' ' ∨ d = ':' → plainChar d := by
    rintro d (rfl | rfl | rfl) <;> exact ⟨by decide, by decide, by decide⟩
  rcases hc with h | rfl | h | rfl | h | rfl | h | rfl | h | rfl | h
  all_goals first
    | exact plainChar_appendInt _ _ c h
    | exact sep _ (by simp)

theorem plainChar_stamp (env : Env) (st : State) : ∀ c ∈ stamp env st, plainChar c := by
  intro c hc
  unfold stamp at hc
  split at hc
  · simp at hc
  · rw [Format_tsf_fields] at hc
    rcases List.mem_append.mp hc with h | h
    · exact plainChar_tsfFields _ c h
    · have : c = ' ' ∨ c = '-' := by
        have h2 : c ∈ [' ', '-', ' '] := h
        simp only [List.mem_cons, List.mem_singleton, List.not_mem_nil, or_false] at h2
        tauto
      rcases this with rfl | rfl <;> exact ⟨by decide, by decide, by decide⟩

theorem plainChar_label (L : LevelName) : ∀ c ∈ L.label, plainChar c := by
  unfold plainChar
  cases L <;> decide

theorem timestamp_eq_stamp (env : Env) (st : State) (s : GoString) :
    timestamp env st s = stamp env st ++ s := by
  unfold timestamp stamp
  split <;> simp

/-! ### Colour markers -/

theorem matchTag_ne_bracket (c : Char) (cs : GoString) (h : c ≠ '[') :
    matchTag (c :: cs) = none := by
  simp [matchTag, h]

theorem colorBody_literal (lit rest : GoString) (h : '[' ∉ lit) :
    colorBody 0 (lit ++ rest) = lit ++ colorBody 0 rest := by
  induction lit with
  | nil => rfl
  | cons c cs ih =>
    have hc : c ≠ '[' := fun e => h (by simp [e])
    have hcs : '[' ∉ cs := fun e => h (List.mem_cons_of_mem _ e)
    show colorBody 0 (c :: (cs ++ rest)) = c :: (cs ++ _)
    rw [colorBody, matchTag_ne_bracket c _ hc, ih hcs]

theorem matchTag_tag (L : LevelName) (s : GoString) :
    matchTag (L.tag ++ s) = some (L.tag.drop 1).dropLast := by
  cases L <;> rfl

/-- The colour marker of a level in front of a text becomes the level's escape
sequence, and the reset sequence is appended. -/
theorem Color_tag (L : LevelName) (s : GoString) :
    Color (L.tag ++ s) = L.colorSeq ++ (colorBody 0 s ++ resetSeq) := by
  cases L <;> rfl

theorem takeWhile_newline (cs : GoString) :
    (cs ++ ['\n']).takeWhile isNameChar = cs.takeWhile isNameChar := by
  induction cs with
  | nil => rfl
  | cons c cs ih =>
    simp only [List.cons_append, List.takeWhile_cons, ih]

theorem dropWhile_newline (cs : GoString) :
    ((cs ++ ['\n']).dropWhile isNameChar).head? = some ']'
      ↔ (cs.dropWhile isNameChar).head? = some ']' := by
  induction cs with
  | nil => decide
  | cons c cs ih =>
    by_cases hc : isNameChar c = true <;> simp [List.dropWhile_cons, hc, ih]

theorem matchTag_newline (s : GoString) (h : s ≠ []) :
    matchTag (s ++ ['\n']) = matchTag s := by
  cases s with
  | nil => exact absurd rfl h
  | cons c cs =>
    simp only [List.cons_append, matchTag, takeWhile_newline, dropWhile_newline]

/-- A match at the head of a text is an opening bracket, the name, a closing
bracket. -/
theorem matchTag_some (s name : GoString) (h : matchTag s = some name) :
    ∃ tl, s = '[' :: (name ++ ']' :: tl) := by
  cases s with
  | nil => simp [matchTag] at h
  | cons c cs =>
    by_cases hcond : c = '[' ∧ cs.takeWhile isNameChar ≠ []
        ∧ (cs.dropWhile isNameChar).head? = some ']'
    · obtain ⟨hc, hne, hd⟩ := hcond
      have h2 : cs.takeWhile isNameChar = name := by
        simpa only [matchTag, if_pos (And.intro hc (And.intro hne hd)),
          Option.some.injEq] using h
      cases hdw : cs.dropWhile isNameChar with
      | nil => rw [hdw] at hd; simp at hd
      | cons d tl =>
        rw [hdw] at hd
        simp only [List.head?_cons, Option.some.injEq] at hd
        refine ⟨tl, ?_⟩
        have := List.takeWhile_append_dropWhile isNameChar cs
        rw [hdw, h2, hd] at this
        rw [hc, this]
    · simp only [matchTag, if_neg hcond] at h
      cases h

/-- A text in which no match names a known colour passes through the loop of
`Color` unchanged, also with a newline after it. -/
theorem colorBody_unknown (m : GoString) (h : knownTag m = false) (skip : Nat) :
    colorBody skip (m ++ ['\n']) = (m ++ ['\n']).drop skip := by
  induction m generalizing skip with
  | nil =>
    cases skip with
    | zero => rfl
    | succ k => simp [colorBody]
  | cons c cs ih =>
    have hcs : knownTag cs = false := by
      unfold knownTag at h
      simp only [Bool.or_eq_false_iff] at h
      exact h.2
    cases skip with
    | succ k =>
      show colorBody (k + 1) (c :: (cs ++ ['\n'])) = _
      rw [colorBody]
      exact ih hcs k
    | zero =>
      show colorBody 0 (c :: (cs ++ ['\n'])) = _
      rw [colorBody]
      have hm : matchTag (c :: (cs ++ ['\n'])) = matchTag (c :: cs) :=
        matchTag_newline (c :: cs) (by simp)
      rw [hm]
      cases hmt : matchTag (c :: cs) with
      | none =>
        simp only [List.drop_zero, List.cons_append]
        rw [ih hcs 0]
        rfl
      | some name =>
        have hcode : colorCode name = none := by
          unfold knownTag at h
          rw [hmt] at h
          simp only [Bool.or_eq_false_iff] at h
          cases hcc : colorCode name with
          | none => rfl
          | some code => rw [hcc] at h; exact absurd h.1 (by simp)
        obtain ⟨tl, htl⟩ := matchTag_some _ _ hmt
        simp only [List.cons.injEq] at htl
        obtain ⟨hc, hcs2⟩ := htl
        simp only [replaceTag, hcode]
        rw [ih hcs (name.length + 1), hc, hcs2]
        simp [List.drop_append]

/-! ### Joining operands, matched formats -/

theorem intercalate_cons (a : GoString) (rest : List GoString) :
    List.intercalate [' '] (a :: rest) = a ++ printlnRest (rest.map Value.str) := by
  induction rest generalizing a with
  | nil => simp [List.intercalate, printlnRest]
  | cons b rest ih =>
    have h := ih b
    simp only [List.intercalate, List.intersperse, List.map_cons, printlnRest,
      Value.formatV] at h ⊢
    simp [h]

/-- `Sprintln` of string operands: the strings joined by single spaces, then a
newline. -/
theorem Sprintln_strings (args : List GoString) :
    Sprintln (args.map Value.str) = List.intercalate [' '] args ++ ['\n'] := by
  cases args with
  | nil => rfl
  | cons a rest =>
    rw [intercalate_cons]
    simp [Sprintln, Value.formatV]

theorem doPrintf_skip_one (env : Env) (a : List Value) (argNum : Nat) (reordered : Bool)
    (c : Char) (cs : GoString) :
    doPrintf env a 1 argNum reordered (c :: cs) = doPrintf env a 0 argNum reordered cs := by
  rw [doPrintf]

theorem doPrintf_percent (env : Env) (a : List Value) (argNum : Nat) (reordered : Bool)
    (cs : GoString) :
    doPrintf env a 0 argNum reordered ('%' :: cs)
      = (directive env a argNum cs).out
        ++ doPrintf env a (directive env a argNum cs).consumed
            (directive env a argNum cs).argNum
            (reordered || (directive env a argNum cs).reordered) cs := by
  rw [doPrintf, if_pos rfl]

theorem doPrintf_char (env : Env) (a : List Value) (argNum : Nat) (reordered : Bool)
    (c : Char) (cs : GoString) (hc : c ≠ '%') :
    doPrintf env a 0 argNum reordered (c :: cs) = c :: doPrintf env a 0 argNum reordered cs := by
  rw [doPrintf, if_neg hc]

theorem matched_char (c : Char) (cs : GoString) (a : List Value) (hc : c ≠ '%') :
    matched (c :: cs) a = matched cs a := by
  rw [matched.eq_def]
  simp [hc]

theorem matched_percent (rest : GoString) (a : List Value) :
    matched ('%' :: '%' :: rest) a = matched rest a := by
  rw [matched.eq_def]
  simp

theorem matched_verb (verb : Char) (rest : GoString) (arg : Value) (a : List Value)
    (hv : verb ≠ '%') :
    matched ('%' :: verb :: rest) (arg :: a)
      = (!startsModifier verb && (printArg arg verb).isSome && matched rest a) := by
  rw [matched.eq_def]
  simp [hv]

theorem matched_verb_nil (verb : Char) (rest : GoString) (hv : verb ≠ '%') :
    matched ('%' :: verb :: rest) [] = false := by
  rw [matched.eq_def]
  simp [hv]

/-- For a matched format, appending the newline to the format or to the result is
the same. -/
theorem doPrintf_matched (env : Env) (a : List Value) (n : Nat) (format : GoString)
    (argNum : Nat) (hn : format.length ≤ n) (h : matched format (a.drop argNum) = true) :
    doPrintf env a 0 argNum false (format ++ ['\n'])
      = doPrintf env a 0 argNum false format ++ ['\n'] := by
  induction n generalizing format argNum with
  | zero =>
    have : format = [] := List.length_eq_zero.mp (Nat.le_zero.mp hn)
    subst this
    have hlen : ¬ argNum < a.length := by
      simp only [matched, List.isEmpty_eq_true, List.drop_eq_nil_iff] at h
      omega
    simp [doPrintf, hlen]
  | succ n ih =>
    cases format with
    | nil =>
      have hlen : ¬ argNum < a.length := by
        simp only [matched, List.isEmpty_eq_true, List.drop_eq_nil_iff] at h
        omega
      simp [doPrintf, hlen]
    | cons c cs =>
      have hcs : cs.length ≤ n := by simpa using hn
      by_cases hc : c = '%'
      · subst hc
        cases cs with
        | nil => simp [matched] at h
        | cons verb rest =>
          have hrest : rest.length ≤ n := by
            simp only [List.length_cons] at hcs
            omega
          by_cases hv : verb = '%'
          · subst hv
            rw [matched_percent] at h
            simp only [List.cons_append, doPrintf_percent, directive, if_true, Bool.or_false,
              doPrintf_skip_one, ih rest argNum hrest h]
            simp
          · cases hd : a.drop argNum with
            | nil =>
              rw [hd, matched_verb_nil _ _ hv] at h
              cases h
            | cons arg a' =>
              rw [hd, matched_verb _ _ _ _ hv] at h
              simp only [Bool.and_eq_true, Bool.not_eq_true'] at h
              obtain ⟨⟨hmod, hpa⟩, hm⟩ := h
              have hget : a[argNum]? = some arg := by
                have := congrArg List.head? hd
                simpa [List.head?_drop] using this
              have hdrop : a.drop (argNum + 1) = a' := by
                have := congrArg List.tail hd
                simpa [List.tail_drop] using this
              obtain ⟨s, hs⟩ := Option.isSome_iff_exists.mp hpa
              have hdir : ∀ tl, directive env a argNum (verb :: tl)
                  = ⟨s, 1, argNum + 1, false⟩ := by
                intro tl
                simp [directive, hv, hmod, hget, hs]
              simp only [List.cons_append, doPrintf_percent, hdir, Bool.or_false,
                doPrintf_skip_one]
              rw [ih rest (argNum + 1) hrest (by rw [hdrop]; exact hm)]
              simp
      · rw [matched_char _ _ _ hc] at h
        simp only [List.cons_append, doPrintf_char _ _ _ _ _ _ hc, ih cs argNum hcs h]

theorem output_filtered (env : Env) (st : State) (world : World) (w : Stream) (l : Level)
    (v : List Value) (h : l < st.level) : output env st world w l v = some (none, world) := by
  unfold output
  rw [if_pos h]

theorem outputf_filtered (env : Env) (st : State) (world : World) (w : Stream) (l : Level)
    (format : GoString) (v : List Value) (h : l < st.level) :
    outputf env st world w l format v = some (none, world) := by
  unfold outputf
  rw [if_pos h]

theorem log_push_same (world : World) (w : Stream) (s : GoString) :
    (world.push w s).log w = world.log w ++ [s] := by
  cases w <;> rfl

theorem log_push_other (world : World) (w w' : Stream) (s : GoString) (h : w' ≠ w) :
    (world.push w s).log w' = world.log w' := by
  cases w <;> cases w' <;> first | rfl | exact absurd rfl h

/-! ## The claims -/

/-- C1. A call below the threshold is a no-op. For every threshold `T` set with
`SetLevel` (from any state, so for any setting of `DisableColor` and
`DisableTime`) and every level `L` with `L < T`, the plain and the formatted call
at level `L`, for any operands and any format, return a nil error and leave both
streams as they were: no write is made. -/
theorem filtered_call_is_noop (env : Env) (st : State) (world : World) (T : Level)
    (L : LevelName) (format : GoString) (v : List Value) (h : L.toLevel < T) :
    plainCall env (SetLevel st T) world L v = some (none, world)
      ∧ formattedCall env (SetLevel st T) world L format v = some (none, world) := by
  rw [plainCall_eq, formattedCall_eq]
  exact ⟨output_filtered _ _ _ _ _ _ h, outputf_filtered _ _ _ _ _ _ _ h⟩

/-- C1 at a concrete input: threshold `Error`, `Warn(7)` and `Warnf("%d%%", 7)`
with colour and timestamps on. -/
theorem filtered_call_is_noop_witness :
    plainCall env0 (SetLevel initial LevelError) world0 .warn [.int 7]
        = some (none, world0)
      ∧ formattedCall env0 (SetLevel initial LevelError) world0 .warn "%d%%".toList [.int 7]
        = some (none, world0) :=
  filtered_call_is_noop env0 initial world0 LevelError .warn "%d%%".toList [.int 7]
    (by decide)

/-- C2. With colour and timestamps disabled, a plain call at a level at or above
the threshold, on string operands, makes one write of exactly: the label of the
level, the operands joined by single spaces, one newline. In particular, with
threshold `Warn`, `Info("skip")` writes nothing, `Warn("careful")` writes
`WARNING: careful\n` to standard output and `Error("boom")` writes
`ERROR: boom\n` to standard error. -/
theorem plain_output_exact (env : Env) (st : State) (world : World) (L : LevelName)
    (args : List GoString) (hc : st.DisableColor = true) (ht : st.DisableTime = true)
    (hl : st.level ≤ L.toLevel) :
    plainCall env st world L (args.map Value.str)
        = some (env.writeErr L.stream (L.label ++ List.intercalate [' '] args ++ ['\n']),
            world.push L.stream (L.label ++ List.intercalate [' '] args ++ ['\n']))
      ∧ Info env ⟨LevelWarn, true, true⟩ world [.str "skip".toList] = some (none, world)
      ∧ Warn env ⟨LevelWarn, true, true⟩ world [.str "careful".toList]
        = some (env.writeErr .stdout "WARNING: careful\n".toList,
            world.push .stdout "WARNING: careful\n".toList)
      ∧ Error env ⟨LevelWarn, true, true⟩ world [.str "boom".toList]
        = some (env.writeErr .stderr "ERROR: boom\n".toList,
            world.push .stderr "ERROR: boom\n".toList) := by
  refine ⟨?_, rfl, rfl, rfl⟩
  rw [plainCall_eq, output_named _ _ _ _ _ _ hl, if_pos hc, timestamp, if_pos ht,
    Sprintln_strings]
  simp [write]

/-- C2 at a concrete input: `Debug("a", "b c", "")` with threshold `Debug`. -/
theorem plain_output_exact_witness :
    plainCall env0 ⟨LevelDebug, true, true⟩ world0 .debug
        (["a".toList, "b c".toList, "".toList].map Value.str)
      = some (none, ⟨["DEBUG: a b c \n".toList], []⟩) :=
  (plain_output_exact env0 ⟨LevelDebug, true, true⟩ world0 .debug
    ["a".toList, "b c".toList, "".toList] rfl rfl (by decide)).1

/-- A call at a named level either is filtered, or makes one write on the
stream it was given and returns what that write reports. -/
theorem output_cases (env : Env) (st : State) (world : World) (w : Stream) (L : LevelName)
    (v : List Value) :
    output env st world w L.toLevel v = some (none, world)
      ∨ ∃ text, output env st world w L.toLevel v
          = some (env.writeErr w text, world.push w text) := by
  by_cases h : L.toLevel < st.level
  · exact Or.inl (output_filtered _ _ _ _ _ _ h)
  · exact Or.inr ⟨_, output_named _ _ _ _ _ _ (not_lt.mp h)⟩

theorem outputf_cases (env : Env) (st : State) (world : World) (w : Stream) (L : LevelName)
    (format : GoString) (v : List Value) :
    outputf env st world w L.toLevel format v = some (none, world)
      ∨ ∃ text, outputf env st world w L.toLevel format v
          = some (env.writeErr w text, world.push w text) := by
  by_cases h : L.toLevel < st.level
  · exact Or.inl (outputf_filtered _ _ _ _ _ _ _ h)
  · exact Or.inr ⟨_, outputf_named _ _ _ _ _ _ _ (not_lt.mp h)⟩

/-- A result that leaves standard error as it was and adds at most one write to
standard output. -/
theorem only_stdout (world : World) (r : Option (Option GoError × World))
    (h : r = some (none, world) ∨ ∃ text e, r = some (e, world.push .stdout text)) :
    ∃ e w', r = some (e, w') ∧ w'.stderr = world.stderr
      ∧ (w'.stdout = world.stdout ∨ ∃ text, w'.stdout = world.stdout ++ [text]) := by
  rcases h with h | ⟨text, e, h⟩
  · exact ⟨none, world, h, rfl, Or.inl rfl⟩
  · exact ⟨e, _, h, rfl, Or.inr ⟨text, rfl⟩⟩

theorem only_stderr (world : World) (r : Option (Option GoError × World))
    (h : r = some (none, world) ∨ ∃ text e, r = some (e, world.push .stderr text)) :
    ∃ e w', r = some (e, w') ∧ w'.stdout = world.stdout
      ∧ (w'.stderr = world.stderr ∨ ∃ text, w'.stderr = world.stderr ++ [text]) := by
  rcases h with h | ⟨text, e, h⟩
  · exact ⟨none, world, h, rfl, Or.inl rfl⟩
  · exact ⟨e, _, h, rfl, Or.inr ⟨text, rfl⟩⟩

theorem output_reshape (env : Env) (st : State) (world : World) (w : Stream) (L : LevelName)
    (v : List Value) :
    output env st world w L.toLevel v = some (none, world)
      ∨ ∃ text e, output env st world w L.toLevel v = some (e, world.push w text) := by
  rcases output_cases env st world w L v with h | ⟨text, h⟩
  · exact Or.inl h
  · exact Or.inr ⟨text, _, h⟩

theorem outputf_reshape (env : Env) (st : State) (world : World) (w : Stream) (L : LevelName)
    (format : GoString) (v : List Value) :
    outputf env st world w L.toLevel format v = some (none, world)
      ∨ ∃ text e, outputf env st world w L.toLevel format v
          = some (e, world.push w text) := by
  rcases outputf_cases env st world w L format v with h | ⟨text, h⟩
  · exact Or.inl h
  · exact Or.inr ⟨text, _, h⟩

/-- C7. In every state and for every operands and format, each of `Debug`,
`Debugf`, `Info`, `Infof`, `Warn` and `Warnf` returns, leaves standard error as
it was and adds at most one write to standard output; `Error` and `Errorf`
return, leave standard output as it was and add at most one write to standard
error. So standard error only receives what `Error` and `Errorf` write. -/
theorem stream_separation (env : Env) (st : State) (world : World) (format : GoString)
    (v : List Value) :
    (∃ e w', Debug env st world v = some (e, w') ∧ w'.stderr = world.stderr
        ∧ (w'.stdout = world.stdout ∨ ∃ text, w'.stdout = world.stdout ++ [text]))
      ∧ (∃ e w', Debugf env st world format v = some (e, w') ∧ w'.stderr = world.stderr
        ∧ (w'.stdout = world.stdout ∨ ∃ text, w'.stdout = world.stdout ++ [text]))
      ∧ (∃ e w', Info env st world v = some (e, w') ∧ w'.stderr = world.stderr
        ∧ (w'.stdout = world.stdout ∨ ∃ text, w'.stdout = world.stdout ++ [text]))
      ∧ (∃ e w', Infof env st world format v = some (e, w') ∧ w'.stderr = world.stderr
        ∧ (w'.stdout = world.stdout ∨ ∃ text, w'.stdout = world.stdout ++ [text]))
      ∧ (∃ e w', Warn env st world v = some (e, w') ∧ w'.stderr = world.stderr
        ∧ (w'.stdout = world.stdout ∨ ∃ text, w'.stdout = world.stdout ++ [text]))
      ∧ (∃ e w', Warnf env st world format v = some (e, w') ∧ w'.stderr = world.stderr
        ∧ (w'.stdout = world.stdout ∨ ∃ text, w'.stdout = world.stdout ++ [text]))
      ∧ (∃ e w', Error env st world v = some (e, w') ∧ w'.stdout = world.stdout
        ∧ (w'.stderr = world.stderr ∨ ∃ text, w'.stderr = world.stderr ++ [text]))
      ∧ (∃ e w', Errorf env st world format v = some (e, w') ∧ w'.stdout = world.stdout
        ∧ (w'.stderr = world.stderr ∨ ∃ text, w'.stderr = world.stderr ++ [text])) :=
  ⟨only_stdout world _ (output_reshape env st world .stdout .debug v),
   only_stdout world _ (outputf_reshape env st world .stdout .debug format v),
   only_stdout world _ (output_reshape env st world .stdout .info v),
   only_stdout world _ (outputf_reshape env st world .stdout .info format v),
   only_stdout world _ (output_reshape env st world .stdout .warn v),
   only_stdout world _ (outputf_reshape env st world .stdout .warn format v),
   only_stderr world _ (output_reshape env st world .stderr .error v),
   only_stderr world _ (outputf_reshape env st world .stderr .error format v)⟩

/-- C8. A call that is not filtered (level at or above the threshold) returns,
having made exactly one `Write`, of the formatted text (the decorated line for a
plain call, the substitution into the decorated template for a formatted call),
on the stream of its level and none on the other stream; the error it returns is
the one that write reported, nil when it reported none. The call cannot fail in
any other way. -/
theorem write_once_error_propagated (env : Env) (st : State) (world : World) (L : LevelName)
    (format : GoString) (v : List Value) (hl : st.level ≤ L.toLevel) :
    (∃ text err w', plainCall env st world L v = some (err, w')
        ∧ colorize st L.toLevel (timestamp env st (L.label ++ Sprintln v)) = some text
        ∧ err = env.writeErr L.stream text
        ∧ w'.log L.stream = world.log L.stream ++ [text]
        ∧ ∀ s, s ≠ L.stream → w'.log s = world.log s)
      ∧ (∃ template err w', formattedCall env st world L format v = some (err, w')
        ∧ colorize st L.toLevel (timestamp env st (L.label ++ (format ++ ['\n'])))
            = some template
        ∧ err = env.writeErr L.stream (Sprintf env template v)
        ∧ w'.log L.stream = world.log L.stream ++ [Sprintf env template v]
        ∧ ∀ s, s ≠ L.stream → w'.log s = world.log s) := by
  rw [plainCall_eq, formattedCall_eq]
  exact ⟨⟨_, _, _, output_named _ _ _ _ _ _ hl, colorize_named _ _ _, rfl,
      log_push_same _ _ _, fun s hs => log_push_other _ _ _ _ hs⟩,
    ⟨_, _, _, outputf_named _ _ _ _ _ _ _ hl, colorize_named _ _ _, rfl,
      log_push_same _ _ _, fun s hs => log_push_other _ _ _ _ hs⟩⟩

/-- C8 at a concrete input: every write reports `broken pipe`; `Error("boom")`
and `Errorf("%s!", "boom")` make one write on standard error and return that
error. -/
theorem write_once_error_propagated_witness :
    (∃ text err w', plainCall envBroken quiet world0 .error [.str "boom".toList] = some (err, w')
        ∧ colorize quiet LevelError
            (timestamp envBroken quiet ("ERROR: ".toList ++ Sprintln [.str "boom".toList]))
            = some text
        ∧ err = some "broken pipe"
        ∧ w'.log .stderr = world0.log .stderr ++ [text]
        ∧ ∀ s, s ≠ Stream.stderr → w'.log s = world0.log s)
      ∧ (∃ template err w', formattedCall envBroken quiet world0 .error "%s!".toList
            [.str "boom".toList] = some (err, w')
        ∧ colorize quiet LevelError
            (timestamp envBroken quiet ("ERROR: ".toList ++ ("%s!".toList ++ ['\n'])))
            = some template
        ∧ err = some "broken pipe"
        ∧ w'.log .stderr
            = world0.log .stderr ++ [Sprintf envBroken template [.str "boom".toList]]
        ∧ ∀ s, s ≠ Stream.stderr → w'.log s = world0.log s) :=
  write_once_error_propagated envBroken quiet world0 .error "%s!".toList
    [.str "boom".toList] (by decide)

/-- C10 (as amended). `SetLevel` stores the value it is given, whatever integer
it is; when every call of a sequence of `SetLevel` calls from the initial state
is given one of the four named levels, the threshold afterwards is one of the
four named levels. -/
theorem threshold_named_after_named_SetLevel (ls : List Level)
    (h : ∀ l ∈ ls, isNamed l) :
    isNamed (ls.foldl SetLevel initial).level
      ∧ ∀ (st : State) (l : Level), (SetLevel st l).level = l := by
  refine ⟨?_, fun _ _ => rfl⟩
  have key : ∀ (ks : List Level) (st : State), isNamed st.level → (∀ l ∈ ks, isNamed l) →
      isNamed (ks.foldl SetLevel st).level := by
    intro ks
    induction ks with
    | nil => intro st hst _; exact hst
    | cons k ks ih =>
      intro st _ hks
      exact ih (SetLevel st k) (hks k (List.mem_cons_self _ _))
        (fun l hl => hks l (List.mem_cons_of_mem _ hl))
  exact key ls initial (Or.inl rfl) h

/-- C10 (as amended) at a concrete input: `SetLevel(LevelError)`, then
`SetLevel(LevelInfo)`. -/
theorem threshold_named_after_named_SetLevel_witness :
    isNamed ([LevelError, LevelInfo].foldl SetLevel initial).level
      ∧ ∀ (st : State) (l : Level), (SetLevel st l).level = l :=
  threshold_named_after_named_SetLevel [LevelError, LevelInfo] (by
    intro l hl
    simp only [List.mem_cons, List.mem_singleton, List.not_mem_nil, or_false] at hl
    rcases hl with rfl | rfl
    · exact Or.inr (Or.inr (Or.inr rfl))
    · exact Or.inr (Or.inl rfl))

/-- C10 as stated fails: `SetLevel(4)` is accepted, the threshold is then `4`,
which is none of the four named levels and exceeds `LevelError`; from then on
even `Error` is filtered. -/
theorem SetLevel_accepts_unnamed_level :
    (SetLevel initial 4).level = 4
      ∧ ¬ isNamed (SetLevel initial 4).level
      ∧ LevelError < (SetLevel initial 4).level
      ∧ Error env0 (SetLevel initial 4) world0 [.str "boom".toList] = some (none, world0) := by
  refine ⟨rfl, ?_, by decide, rfl⟩
  unfold isNamed
  decide

/-! ### The decorated line -/

theorem not_bracket_stamp_label (env : Env) (st : State) (L : LevelName) :
    '[' ∉ stamp env st ++ L.label := by
  intro h
  rcases List.mem_append.mp h with h | h
  · exact (plainChar_stamp env st _ h).2.1 rfl
  · exact (plainChar_label L _ h).2.1 rfl

theorem not_percent_stamp_label (env : Env) (st : State) (L : LevelName) :
    '%' ∉ stamp env st ++ L.label := by
  intro h
  rcases List.mem_append.mp h with h | h
  · exact (plainChar_stamp env st _ h).1 rfl
  · exact (plainChar_label L _ h).1 rfl

theorem not_esc_stamp_label (env : Env) (st : State) (L : LevelName) :
    esc ∉ stamp env st ++ L.label := by
  intro h
  rcases List.mem_append.mp h with h | h
  · exact (plainChar_stamp env st _ h).2.2 rfl
  · exact (plainChar_label L _ h).2.2 rfl

theorem not_percent_colorSeq (L : LevelName) : '%' ∉ L.colorSeq := by
  cases L <;> decide

/-- With colour on, the decorated line is the escape sequence of the level, the
timestamp segment, the label, the message with its markers resolved, and the
reset sequence. -/
theorem colored_line (env : Env) (st : State) (L : LevelName) (msg : GoString) :
    Color (L.tag ++ timestamp env st (L.label ++ msg))
      = L.colorSeq ++ (stamp env st ++ L.label) ++ (colorBody 0 msg ++ resetSeq) := by
  rw [Color_tag, timestamp_eq_stamp, ← List.append_assoc (stamp env st),
    colorBody_literal _ _ (not_bracket_stamp_label env st L)]
  simp only [List.append_assoc]

/-- C9. For every threshold and every level at or above it, and for every
setting of the colour and timestamp flags, the plain call and the formatted call
at that level each make exactly one write, on the stream of the level, and the
text written contains the label of the level. -/
theorem one_write_with_label (env : Env) (st : State) (world : World) (L : LevelName)
    (format : GoString) (v : List Value) (hl : st.level ≤ L.toLevel) :
    (∃ text, plainCall env st world L v
          = some (env.writeErr L.stream text, world.push L.stream text)
        ∧ (world.push L.stream text).log L.stream = world.log L.stream ++ [text]
        ∧ List.IsInfix L.label text)
      ∧ (∃ text, formattedCall env st world L format v
          = some (env.writeErr L.stream text, world.push L.stream text)
        ∧ (world.push L.stream text).log L.stream = world.log L.stream ++ [text]
        ∧ List.IsInfix L.label text) := by
  rw [plainCall_eq, formattedCall_eq]
  refine ⟨⟨_, output_named _ _ _ _ _ _ hl, log_push_same _ _ _, ?_⟩,
    ⟨_, outputf_named _ _ _ _ _ _ _ hl, log_push_same _ _ _, ?_⟩⟩
  · cases hc : st.DisableColor
    · rw [if_neg (by simp), colored_line]
      exact ⟨L.colorSeq ++ stamp env st, colorBody 0 (Sprintln v) ++ resetSeq, by
        simp only [List.append_assoc]⟩
    · rw [if_pos rfl, timestamp_eq_stamp]
      exact ⟨stamp env st, Sprintln v, by simp only [List.append_assoc]⟩
  · cases hc : st.DisableColor
    · rw [if_neg (by simp), colored_line, List.append_assoc,
        Sprintf_literal _ _ _ _ (not_percent_colorSeq L),
        Sprintf_literal _ _ _ _ (not_percent_stamp_label env st L)]
      exact ⟨L.colorSeq ++ stamp env st,
        Sprintf env (colorBody 0 (format ++ ['\n']) ++ resetSeq) v, by
        simp only [List.append_assoc]⟩
    · rw [if_pos rfl, timestamp_eq_stamp, ← List.append_assoc,
        Sprintf_literal _ _ _ _ (not_percent_stamp_label env st L)]
      exact ⟨stamp env st, Sprintf env (format ++ ['\n']) v, by
        simp only [List.append_assoc]⟩

/-- C9 at a concrete input: threshold `Info`, colour and timestamps on,
`Warn("x")` and `Warnf("%v", "x")`. -/
theorem one_write_with_label_witness :
    (∃ text, plainCall env0 ⟨LevelInfo, false, false⟩ world0 .warn [.str "x".toList]
          = some (none, world0.push .stdout text)
        ∧ (world0.push .stdout text).log .stdout = world0.log .stdout ++ [text]
        ∧ List.IsInfix "WARNING: ".toList text)
      ∧ (∃ text, formattedCall env0 ⟨LevelInfo, false, false⟩ world0 .warn "%v".toList
            [.str "x".toList]
          = some (none, world0.push .stdout text)
        ∧ (world0.push .stdout text).log .stdout = world0.log .stdout ++ [text]
        ∧ List.IsInfix "WARNING: ".toList text) :=
  one_write_with_label env0 ⟨LevelInfo, false, false⟩ world0 .warn "%v".toList
    [.str "x".toList] (by decide)

/-- C3 (as amended). With colour and timestamps disabled, a formatted call at a
level at or above the threshold makes one write of exactly: the label of the
level, followed by the result of substituting the operands into the template
with a newline appended to it (the newline is part of the template, it is not
added after the substitution). When the template is made of literal text and the
directives `%%`, `%v`, `%s`, `%d`, each taking one operand it renders and none
left over, that result is the substituted message followed by a single newline;
so `Infof("count=%d", 5)` writes exactly `INFO: count=5\n`. -/
theorem formatted_output_exact (env : Env) (st : State) (world : World) (L : LevelName)
    (format : GoString) (v : List Value) (hc : st.DisableColor = true)
    (ht : st.DisableTime = true) (hl : st.level ≤ L.toLevel) :
    formattedCall env st world L format v
        = some (env.writeErr L.stream (L.label ++ Sprintf env (format ++ ['\n']) v),
            world.push L.stream (L.label ++ Sprintf env (format ++ ['\n']) v))
      ∧ (matched format v = true →
          Sprintf env (format ++ ['\n']) v = Sprintf env format v ++ ['\n'])
      ∧ Infof env ⟨LevelDebug, true, true⟩ world "count=%d".toList [.int 5]
        = some (env.writeErr .stdout "INFO: count=5\n".toList,
            world.push .stdout "INFO: count=5\n".toList) := by
  refine ⟨?_, ?_, rfl⟩
  · rw [formattedCall_eq, outputf_named _ _ _ _ _ _ _ hl, if_pos hc, timestamp, if_pos ht,
      Sprintf_literal _ _ _ _ (fun h => (plainChar_label L _ h).1 rfl)]
    rfl
  · intro hm
    exact doPrintf_matched env v format.length format 0 (Nat.le_refl _) hm

/-- C3 (as amended) at a concrete input: `Warnf("%s: %d%%", "load", 93)` with
threshold `Warn`. -/
theorem formatted_output_exact_witness :
    formattedCall env0 quiet world0 .warn "%s: %d%%".toList [.str "load".toList, .int 93]
        = some (none, world0.push .stdout
            ("WARNING: ".toList
              ++ Sprintf env0 ("%s: %d%%".toList ++ ['\n']) [.str "load".toList, .int 93]))
      ∧ (matched "%s: %d%%".toList [.str "load".toList, .int 93] = true →
          Sprintf env0 ("%s: %d%%".toList ++ ['\n']) [.str "load".toList, .int 93]
            = Sprintf env0 "%s: %d%%".toList [.str "load".toList, .int 93] ++ ['\n'])
      ∧ Infof env0 ⟨LevelDebug, true, true⟩ world0 "count=%d".toList [.int 5]
        = some (none, world0.push .stdout "INFO: count=5\n".toList) :=
  formatted_output_exact env0 quiet world0 .warn "%s: %d%%".toList
    [.str "load".toList, .int 93] rfl rfl (by decide)

/-- C3 as stated fails. With colour and timestamps disabled and threshold
`Debug`, `Infof("x", 5)` writes `INFO: x\n%!(EXTRA int=5)`: the report of the
surplus operand comes after the newline, whereas the label, the substituted
message `x%!(EXTRA int=5)` and a trailing newline would be
`INFO: x%!(EXTRA int=5)\n`. Likewise `Infof("100%")` writes
`INFO: 100%!\n(MISSING)`, the newline being taken for the verb. -/
theorem formatted_newline_not_last :
    formattedCall env0 ⟨LevelDebug, true, true⟩ world0 .info "x".toList [.int 5]
        = some (none, ⟨["INFO: x\n%!(EXTRA int=5)".toList], []⟩)
      ∧ LevelName.info.label ++ Sprintf env0 "x".toList [.int 5] ++ ['\n']
        = "INFO: x%!(EXTRA int=5)\n".toList
      ∧ formattedCall env0 ⟨LevelDebug, true, true⟩ world0 .info "x".toList [.int 5]
        ≠ some (none, world0.push .stdout
            (LevelName.info.label ++ Sprintf env0 "x".toList [.int 5] ++ ['\n']))
      ∧ formattedCall env0 ⟨LevelDebug, true, true⟩ world0 .info "100%".toList []
        = some (none, ⟨["INFO: 100%!\n(MISSING)".toList], []⟩)
      ∧ LevelName.info.label ++ Sprintf env0 "100%".toList [] ++ ['\n']
        = "INFO: 100%!(NOVERB)\n".toList := by
  refine ⟨by decide, by decide, by decide, by decide, by decide⟩

/-- C4 (as amended). When `DisableColor` is true, for every level, operands,
format and timestamp setting, a call that is filtered writes nothing, and a call
that is not writes exactly the optional timestamp segment, the label of the
level and the message text (for a plain call the operands joined by spaces and a
newline, for a formatted call the substitution into the template with its
newline). Nothing is added by the logger: the timestamp segment and the label
contain no escape character, so the text written contains an escape character
only if the message text itself does. -/
theorem no_color_output_shape (env : Env) (st : State) (world : World) (L : LevelName)
    (format : GoString) (v : List Value) (hc : st.DisableColor = true) :
    plainCall env st world L v
        = (if L.toLevel < st.level then some (none, world)
           else some (env.writeErr L.stream (stamp env st ++ L.label ++ Sprintln v),
              world.push L.stream (stamp env st ++ L.label ++ Sprintln v)))
      ∧ formattedCall env st world L format v
        = (if L.toLevel < st.level then some (none, world)
           else some
            (env.writeErr L.stream
                (stamp env st ++ L.label ++ Sprintf env (format ++ ['\n']) v),
              world.push L.stream
                (stamp env st ++ L.label ++ Sprintf env (format ++ ['\n']) v)))
      ∧ esc ∉ stamp env st ++ L.label
      ∧ (esc ∈ stamp env st ++ L.label ++ Sprintln v ↔ esc ∈ Sprintln v)
      ∧ (esc ∈ stamp env st ++ L.label ++ Sprintf env (format ++ ['\n']) v
          ↔ esc ∈ Sprintf env (format ++ ['\n']) v) := by
  have hesc := not_esc_stamp_label env st L
  refine ⟨?_, ?_, hesc, ?_, ?_⟩
  · by_cases h : L.toLevel < st.level
    · rw [if_pos h, plainCall_eq, output_filtered _ _ _ _ _ _ h]
    · rw [if_neg h, plainCall_eq, output_named _ _ _ _ _ _ (not_lt.mp h), if_pos hc,
        timestamp_eq_stamp, ← List.append_assoc]
      rfl
  · by_cases h : L.toLevel < st.level
    · rw [if_pos h, formattedCall_eq, outputf_filtered _ _ _ _ _ _ _ h]
    · rw [if_neg h, formattedCall_eq, outputf_named _ _ _ _ _ _ _ (not_lt.mp h), if_pos hc,
        timestamp_eq_stamp, ← List.append_assoc,
        Sprintf_literal _ _ _ _ (not_percent_stamp_label env st L)]
      rfl
  · rw [List.mem_append]
    exact ⟨fun h => h.resolve_left hesc, Or.inr⟩
  · rw [List.mem_append]
    exact ⟨fun h => h.resolve_left hesc, Or.inr⟩

/-- C4 (as amended) at a concrete input: colour disabled, timestamps on,
threshold `Debug`, `Info(3)` and `Infof("up %d", 3)`. -/
theorem no_color_output_shape_witness :
    plainCall env0 ⟨LevelDebug, true, false⟩ world0 .info [.int 3]
        = some (none, ⟨["2026/11/04 09:05:07 - INFO: 3\n".toList], []⟩)
      ∧ formattedCall env0 ⟨LevelDebug, true, false⟩ world0 .info "up %d".toList [.int 3]
        = some (none, ⟨["2026/11/04 09:05:07 - INFO: up 3\n".toList], []⟩) := by
  have h := no_color_output_shape env0 ⟨LevelDebug, true, false⟩ world0 .info
    "up %d".toList [.int 3] rfl
  exact ⟨h.1.trans (by decide), h.2.1.trans (by decide)⟩

/-- C4 as stated fails. With colour and timestamps disabled, `Info` of a message
that itself carries an escape sequence writes that sequence: the text written
contains the escape character. -/
theorem escape_in_message_is_written :
    Info env0 ⟨LevelDebug, true, true⟩ world0 [.str (esc :: "[31mhi".toList)]
        = some (none, ⟨["INFO: ".toList ++ esc :: "[31mhi\n".toList], []⟩)
      ∧ esc ∈ "INFO: ".toList ++ esc :: "[31mhi\n".toList := by
  refine ⟨by decide, by decide⟩

/-- C5 (as amended). With colour enabled and timestamps disabled, for every level
at or above the threshold and every message text in which no marker `[name]`
names a known colour, the plain call on that message makes one write of exactly:
the escape sequence of the colour of the level (blue for Debug, cyan for Info,
yellow for Warn, red for Error), the label of the level, the message unchanged,
a newline, the reset sequence. -/
theorem colored_plain_output (env : Env) (st : State) (world : World) (L : LevelName)
    (m : GoString) (hc : st.DisableColor = false) (ht : st.DisableTime = true)
    (hl : st.level ≤ L.toLevel) (hm : knownTag m = false) :
    plainCall env st world L [.str m]
      = some (env.writeErr L.stream (L.colorSeq ++ L.label ++ m ++ ['\n'] ++ resetSeq),
          world.push L.stream (L.colorSeq ++ L.label ++ m ++ ['\n'] ++ resetSeq)) := by
  have hs : stamp env st = [] := by
    unfold stamp
    rw [if_pos ht]
  rw [plainCall_eq, output_named _ _ _ _ _ _ hl, if_neg (by simp [hc]), colored_line, hs,
    Sprintln_single, colorBody_unknown m hm 0]
  simp [write]

/-- C5 (as amended) at a concrete input: `Error("disk [sda1] full")`, whose
bracketed word is no colour name. -/
theorem colored_plain_output_witness :
    plainCall env0 ⟨LevelDebug, false, true⟩ world0 .error [.str "disk [sda1] full".toList]
      = some (none, ⟨[], [esc :: "[31mERROR: disk [sda1] full\n".toList ++ esc :: "[0m".toList]⟩) :=
  colored_plain_output env0 ⟨LevelDebug, false, true⟩ world0 .error "disk [sda1] full".toList
    rfl rfl (by decide) (by decide)

/-- C5 as stated fails. With colour enabled and timestamps disabled,
`Info("[bold]x")` does not write the message unchanged: the marker `[bold]` in
the message is resolved to the escape sequence `ESC[1m`. -/
theorem marker_in_message_is_resolved :
    plainCall env0 ⟨LevelDebug, false, true⟩ world0 .info [.str "[bold]x".toList]
        = some (none,
            ⟨[esc :: "[36mINFO: ".toList ++ esc :: "[1mx\n".toList ++ esc :: "[0m".toList], []⟩)
      ∧ plainCall env0 ⟨LevelDebug, false, true⟩ world0 .info [.str "[bold]x".toList]
        ≠ some (none, world0.push .stdout
            (LevelName.info.colorSeq ++ LevelName.info.label ++ "[bold]x".toList ++ ['\n']
              ++ resetSeq)) := by
  refine ⟨by decide, by decide⟩

/-! ### Decimal digits -/

theorem digitChar_mod (n : Nat) : Nat.digitChar (n % 10) = digit n := by
  unfold digit
  have h : n % 10 < 10 := Nat.mod_lt _ (by decide)
  generalize n % 10 = k at h
  interval_cases k <;> rfl

theorem toDigitsCore_digitsRev (fuel n : Nat) (ds : List Char) :
    Nat.toDigitsCore 10 fuel n ds = (digitsRev fuel n).reverse ++ ds := by
  induction fuel generalizing n ds with
  | zero => rfl
  | succ f ih =>
    simp only [Nat.toDigitsCore, digitsRev]
    by_cases h : n < 10
    · have h0 : n / 10 = 0 := Nat.div_eq_of_lt h
      simp [h, h0, digitChar_mod]
    · have h0 : n / 10 ≠ 0 := by omega
      simp [h, h0, ih, digitChar_mod]

/-- The digits of the model are those of Lean's decimal printer. -/
theorem decimal_eq_toDigits (n : Nat) : decimal n = Nat.toDigits 10 n := by
  simp [decimal, Nat.toDigits, toDigitsCore_digitsRev]

theorem zeroPadded_two : ∀ n, n < 100 → zeroPadded 2 n = [digitAt n 1, digitAt n 0] := by
  decide

theorem digitsRev_fuel (f : Nat) : ∀ n, n < f → digitsRev f n = digitsRev (n + 1) n := by
  induction f using Nat.strong_induction_on with
  | _ f ih =>
    intro n hn
    cases f with
    | zero => omega
    | succ g =>
      by_cases h : n < 10
      · simp [digitsRev, h]
      · have h1 : n / 10 < g := by omega
        have h2 : n / 10 < n := by omega
        have e1 := ih g (Nat.lt_succ_self g) (n / 10) h1
        have e2 := ih n hn (n / 10) h2
        simp only [digitsRev, if_neg h, e1, e2]

theorem decimal_step (n : Nat) (h : 10 ≤ n) : decimal n = decimal (n / 10) ++ [digit n] := by
  have h2 : n / 10 < n := by omega
  simp only [decimal, digitsRev, if_neg (not_lt.mpr h), List.reverse_cons,
    digitsRev_fuel n (n / 10) h2]

theorem digit_eq_digitAt (n : Nat) : digit n = digitAt n 0 := by
  unfold digit digitAt
  have h : n % 10 < 10 := Nat.mod_lt _ (by decide)
  simp only [pow_zero, Nat.div_one]
  generalize n % 10 = k at h
  interval_cases k <;> rfl

theorem zeroPadded_four_small :
    ∀ n, n < 100 → zeroPadded 4 n = [digitAt n 3, digitAt n 2, digitAt n 1, digitAt n 0] := by
  decide

theorem zeroPadded_four (n : Nat) (h : n < 10000) :
    zeroPadded 4 n = [digitAt n 3, digitAt n 2, digitAt n 1, digitAt n 0] := by
  by_cases hs : n < 100
  · exact zeroPadded_four_small n hs
  · have h10 : 10 ≤ n := by omega
    have h10' : 10 ≤ n / 10 := by omega
    have ha : n / 10 / 10 < 100 := by omega
    have hd : Nat.toDigits 10 n
        = Nat.toDigits 10 (n / 10 / 10) ++ [digit (n / 10), digit n] := by
      rw [← decimal_eq_toDigits, ← decimal_eq_toDigits, decimal_step n h10,
        decimal_step (n / 10) h10']
      simp
    have hp := zeroPadded_two (n / 10 / 10) ha
    unfold zeroPadded at hp ⊢
    rw [hd, List.length_append, ← List.append_assoc]
    have e : 4 - ((Nat.toDigits 10 (n / 10 / 10)).length + [digit (n / 10), digit n].length)
        = 2 - (Nat.toDigits 10 (n / 10 / 10)).length := by
      simp only [List.length_cons, List.length_nil]
      omega
    rw [e, hp, digit_eq_digitAt, digit_eq_digitAt]
    have e3 : digitAt (n / 10 / 10) 1 = digitAt n 3 := by
      unfold digitAt
      congr 2
      simp only [Nat.div_div_eq_div_mul]
      norm_num
    have e2 : digitAt (n / 10 / 10) 0 = digitAt n 2 := by
      unfold digitAt
      congr 2
      simp only [Nat.div_div_eq_div_mul]
      norm_num
    have e1 : digitAt (n / 10) 0 = digitAt n 1 := by
      unfold digitAt
      congr 2
      norm_num
    rw [e3, e2, e1]
    rfl

/-- For a time of the calendar, `YYYY/MM/DD hh:mm:ss` is nineteen characters:
four digits, two, two, two, two and two, with the separators between. -/
theorem ymdHms_calendar (t : Time) (h : t.isCalendar) : ymdHms t = nineteen t := by
  obtain ⟨hy0, hy, _, hmo, _, hd, hh, hmi, hs⟩ := h
  have hneg : ¬ t.year < 0 := not_lt.mpr hy0
  have hnat : t.year.natAbs = t.year.toNat := by omega
  have hlt : t.year.toNat < 10000 := by omega
  simp only [ymdHms, if_neg hneg, hnat, zeroPadded_four _ hlt,
    zeroPadded_two t.month (by omega), zeroPadded_two t.day (by omega),
    zeroPadded_two t.hour (by omega), zeroPadded_two t.minute (by omega),
    zeroPadded_two t.second (by omega), nineteen]
  rfl

/-- C6. With colour disabled, for every level at or above the threshold, every
operands and every current time, the plain call with timestamps enabled writes
the time rendered as `YYYY/MM/DD hh:mm:ss` (24-hour clock), then ` - `, then what
the same call writes with timestamps disabled. Setting `DisableTime` to true
removes exactly that segment; setting it back to false restores it. The
rendering is the one `tsf` produces, and for a time of the calendar it is the
nineteen characters: four digits of the year, `/`, two of the month, `/`, two of
the day, a space, two of the hour, `:`, two of the minute, `:`, two of the
second. -/
theorem timestamp_segment (env : Env) (st : State) (world : World) (L : LevelName)
    (v : List Value) (hc : st.DisableColor = true) (hl : st.level ≤ L.toLevel) :
    plainCall env (assignDisableTime st false) world L v
        = some
          (env.writeErr L.stream (ymdHms env.now ++ " - ".toList ++ (L.label ++ Sprintln v)),
            world.push L.stream (ymdHms env.now ++ " - ".toList ++ (L.label ++ Sprintln v)))
      ∧ plainCall env (assignDisableTime (assignDisableTime st false) true) world L v
        = some (env.writeErr L.stream (L.label ++ Sprintln v),
            world.push L.stream (L.label ++ Sprintln v))
      ∧ plainCall env
          (assignDisableTime (assignDisableTime (assignDisableTime st false) true) false)
          world L v
        = plainCall env (assignDisableTime st false) world L v
      ∧ env.now.Format tsf = ymdHms env.now
      ∧ (env.now.isCalendar → ymdHms env.now = nineteen env.now) := by
  have hfmt : env.now.Format tsf = ymdHms env.now := by
    have hn : ∀ n : Nat, ¬ ((n : Int) < 0) := fun n => by omega
    rw [Format_tsf_fields]
    simp [tsfFields, ymdHms, appendInt, zeroPadded, decimal_eq_toDigits, hn]
  refine ⟨?_, ?_, rfl, hfmt, ymdHms_calendar _⟩
  · have h1 := output_named env (assignDisableTime st false) world L.stream L v hl
    rw [plainCall_eq, h1]
    simp [assignDisableTime, hc, timestamp, hfmt, write]
  · have h1 := output_named env (assignDisableTime (assignDisableTime st false) true) world
      L.stream L v hl
    rw [plainCall_eq, h1]
    simp [assignDisableTime, hc, timestamp, write]

/-- C6 at a concrete input: `Info("hi")` on 4 November 2026 at 09:05:07, colour
disabled, with timestamps on, then off, then on again. -/
theorem timestamp_segment_witness :
    plainCall env0 (assignDisableTime ⟨LevelDebug, true, true⟩ false) world0 .info
          [.str "hi".toList]
        = some (none, ⟨["2026/11/04 09:05:07 - INFO: hi\n".toList], []⟩)
      ∧ plainCall env0
          (assignDisableTime (assignDisableTime ⟨LevelDebug, true, true⟩ false) true) world0
          .info [.str "hi".toList]
        = some (none, ⟨["INFO: hi\n".toList], []⟩)
      ∧ plainCall env0
          (assignDisableTime
            (assignDisableTime (assignDisableTime ⟨LevelDebug, true, true⟩ false) true) false)
          world0 .info [.str "hi".toList]
        = some (none, ⟨["2026/11/04 09:05:07 - INFO: hi\n".toList], []⟩)
      ∧ env0.now.Format tsf = "2026/11/04 09:05:07".toList
      ∧ ymdHms env0.now = "2026/11/04 09:05:07".toList
      ∧ nineteen env0.now = "2026/11/04 09:05:07".toList := by
  have h := timestamp_segment env0 ⟨LevelDebug, true, true⟩ world0 .info [.str "hi".toList]
    rfl (by decide)
  have hcal : env0.now.isCalendar := by
    unfold Time.isCalendar
    decide
  have hfmt : env0.now.Format tsf = "2026/11/04 09:05:07".toList := by decide
  have hon : plainCall env0 (assignDisableTime ⟨LevelDebug, true, true⟩ false) world0 .info
      [.str "hi".toList]
      = some (none, ⟨["2026/11/04 09:05:07 - INFO: hi\n".toList], []⟩) := by decide
  have hlit : ymdHms env0.now = "2026/11/04 09:05:07".toList := h.2.2.2.1.symm.trans hfmt
  exact ⟨hon, h.2.1.trans (by decide), h.2.2.1.trans hon, hfmt, hlit,
    (h.2.2.2.2 hcal).symm.trans hlit⟩

/-! ## The model at concrete inputs -/

/-- The timestamped line of `Info("hi")` on 4 November 2026 at 09:05:07, colour
disabled, and the same line with colour enabled. -/
theorem example_info_lines :
    Info env0 ⟨LevelDebug, true, false⟩ world0 [.str "hi".toList]
        = some (none, ⟨["2026/11/04 09:05:07 - INFO: hi\n".toList], []⟩)
      ∧ Info env0 initial world0 [.str "hi".toList]
        = some (none,
            ⟨[esc :: "[36m2026/11/04 09:05:07 - INFO: hi\n".toList ++ esc :: "[0m".toList], []⟩) := by
  refine ⟨by decide, by decide⟩

/-- A failing write: `Errorf("%s!", "boom")` returns the error of the write. -/
theorem example_broken_pipe :
    Errorf envBroken quiet world0 "%s!".toList [.str "boom".toList]
      = some (some "broken pipe", ⟨[], ["ERROR: boom!\n".toList]⟩) := by
  decide

/-- A level outside the tables panics in `output` once it passes the filter; the
eight entry points never pass such a level. -/
theorem example_index_out_of_range :
    output env0 initial world0 .stdout 4 [] = none
      ∧ output env0 (SetLevel initial 5) world0 .stdout 4 [] = some (none, world0) := by
  refine ⟨by decide, by decide⟩

/-- A matched template: `Warnf("%s: %d%%", "load", 93)` with colour and
timestamps disabled ends in its single newline. -/
theorem example_matched_template :
    Warnf env0 quiet world0 "%s: %d%%".toList [.str "load".toList, .int 93]
      = some (none, ⟨["WARNING: load: 93%\n".toList], []⟩) := by
  decide

end Log
